import Mathlib

/-!
# Boundary fetcher: geometry assembly and inventory scan

A shallow embedding of `fetch.go` (`fetchBoundary`) and of the inventory part of
`main.go` (`getDownloadedBoundaries`, `getQNumber`).

Conventions of the embedding.

* Coordinates.  The program never computes with a latitude or a longitude: it
  copies them and compares them with `!=`.  The coordinate type is therefore a
  parameter `α` with decidable equality; it stands for the numeric value of a
  decoded `float64` (the JSON decoder yields finite values only).
* Go maps (`map[string]string`) are association lists with distinct keys
  (`AList`); ranging over a map visits the entries in the order of the list,
  which is arbitrary.
* Go slices are lists; `append` adds at the end.
* Go strings are Lean strings.  Go orders strings by their bytes; for UTF-8
  text this is the order by code points, which is the order of `String`.
* Calls that leave the program (HTTP, the file system, the JSON codec, the
  sorting routine of the standard library) are supplied by an environment.
-/

namespace BoundaryFetcher

/-! ## Data model of `fetch.go` -/

/-- Go `map[string]string` (and the string-valued `map[string]interface{}`). -/
abbrev StrMap := AList (fun _ : String => String)

/-- Two maps are equal when their entry lists are; this instance evaluates. -/
instance instDecidableEqStrMap : DecidableEq StrMap :=
  fun a b => decidable_of_iff (a.entries = b.entries) AList.ext_iff.symm

/-- The struct `Point`: a decoded latitude/longitude pair. -/
structure Point (α : Type) where
  Lat : α
  Lon : α
deriving DecidableEq, Repr

/-- The struct `Member`; the field `Type` is spelled `Typ`. -/
structure Member (α : Type) where
  Typ : String
  Ref : Int
  Role : String
  Geometry : List (Point α)
deriving DecidableEq

/-- The struct `Element`; the field `Type` is spelled `Typ`. -/
structure Element (α : Type) where
  Typ : String
  Id : Int
  Tags : StrMap
  Members : List (Member α)

/-- The struct `OSMResponse`. -/
structure OSMResponse (α : Type) where
  Elements : List (Element α)

/-- The `geojson.Geometry` value built by `NewPolygonGeometry`: a type tag and
the polygon, a list of rings, each a list of positions `[]float64`. -/
structure Geometry (α : Type) where
  Typ : String
  Polygon : List (List (List α))
deriving DecidableEq

/-- The `geojson.Feature` value: type tag, geometry and property map. -/
structure Feature (α : Type) where
  Typ : String
  Geometry : Geometry α
  Properties : StrMap
deriving DecidableEq

/-- The `geojson.FeatureCollection` value. -/
structure FeatureCollection (α : Type) where
  Typ : String
  Features : List (Feature α)
deriving DecidableEq

set_option linter.unusedSectionVars false
set_option linter.unusedVariables false
set_option linter.dupNamespace false

variable {α σ : Type} [DecidableEq α]

/-- The library call `geojson.NewFeatureCollection()`. -/
def NewFeatureCollection : FeatureCollection α :=
  { Typ := "FeatureCollection", Features := [] }

/-- The library call `geojson.NewPolygonGeometry(polygon)`. -/
def NewPolygonGeometry (polygon : List (List (List α))) : Geometry α :=
  { Typ := "Polygon", Polygon := polygon }

/-- The library call `geojson.NewFeature(geometry)`: the property map starts empty. -/
def NewFeature (geometry : Geometry α) : Feature α :=
  { Typ := "Feature", Geometry := geometry, Properties := ∅ }

/-- The library call `feature.SetProperty(key, value)`: `f.Properties[key] = value`. -/
def Feature.SetProperty (f : Feature α) (key value : String) : Feature α :=
  { f with Properties := f.Properties.insert key value }

/-- The library call `fc.AddFeature(feature)`: append to `fc.Features`. -/
def FeatureCollection.AddFeature (fc : FeatureCollection α) (feature : Feature α) :
    FeatureCollection α :=
  { fc with Features := fc.Features ++ [feature] }

/-! ## The geometry-assembly loop of `fetchBoundary` (fetch.go, lines 76-101) -/

/-- Lines 82-84: `for _, point := range member.Geometry` appends
`[]float64{point.Lon, point.Lat}` to `coords`. -/
def appendPoints (coords : List (List α)) (geometry : List (Point α)) : List (List α) :=
  geometry.foldl (fun c point => c ++ [[point.Lon, point.Lat]]) coords

/-- Lines 80-87: the scan of the members, started with the current `coords`.
The first member with role `"outer"` and a non-empty geometry contributes its
points, and the `break` ends the scan. -/
def scanMembers (coords : List (List α)) : List (Member α) → List (List α)
  | [] => coords
  | member :: rest =>
    if member.Role = "outer" ∧ member.Geometry.length > 0 then
      appendPoints coords member.Geometry
    else
      scanMembers coords rest

/-- Lines 79-87: `var coords [][]float64` followed by the scan of the members. -/
def collectCoords (members : List (Member α)) : List (List α) :=
  scanMembers [] members

/-- Lines 89-92: close the polygon if not closed.  `coords[0]` and
`coords[len(coords)-1]` are compared at index 0 and at index 1; when they
differ, `coords[0]` is appended.  The caller has checked `len(coords) > 0`. -/
def closeRing (coords : List (List α)) : List (List α) :=
  match coords.head?, coords.getLast? with
  | some first, some last =>
    if first[0]? ≠ last[0]? ∨ first[1]? ≠ last[1]? then coords ++ [first] else coords
  | _, _ => coords

/-- Lines 95-97: `for k, v := range element.Tags { feature.SetProperty(k, v) }`. -/
def setProperties (feature : Feature α) (tags : StrMap) : Feature α :=
  tags.entries.foldl (fun f kv => f.SetProperty kv.1 kv.2) feature

/-- Lines 89-97: the feature built from a non-empty `coords` and the tags. -/
def buildFeature (coords : List (List α)) (tags : StrMap) : Feature α :=
  let coords := closeRing coords
  let polygon := NewPolygonGeometry [coords]
  let feature := NewFeature polygon
  setProperties feature tags

/-- Lines 78-100: the body of the loop over the elements. -/
def assembleElement (fc : FeatureCollection α) (element : Element α) : FeatureCollection α :=
  if element.Typ = "relation" then
    let coords := collectCoords element.Members
    if coords.length > 0 then
      fc.AddFeature (buildFeature coords element.Tags)
    else
      fc
  else
    fc

/-- Lines 76-101: the feature collection built from the decoded elements. -/
def assemble (elements : List (Element α)) : FeatureCollection α :=
  elements.foldl assembleElement NewFeatureCollection

/-! ## `fetchBoundary` as a whole (fetch.go, lines 37-122)

The file system is a state of type `σ` that is passed along; the calls that
leave the program are fields of the environment.  The progress messages printed
to the terminal are not modelled. -/

/-- The response of `http.Get` as far as the program looks at it: the status
code and the outcome of `io.ReadAll(resp.Body)`. -/
structure HttpResponse where
  StatusCode : Int
  Body : Except String String

/-- The errors `fetchBoundary` returns, by the statement that returns them. -/
inductive FetchError where
  | transport (err : String)
  | status (code : Int)
  | read (err : String)
  | decode (err : String)
  | marshal (err : String)
  | mkdir (err : String)
  | write (err : String)
deriving DecidableEq, Repr

/-- The text of an error; line 60 is
`fmt.Errorf("API request failed with status %d", resp.StatusCode)`. -/
def FetchError.message : FetchError → String
  | .transport err => err
  | .status code => "API request failed with status " ++ toString code
  | .read err => err
  | .decode err => err
  | .marshal err => err
  | .mkdir err => err
  | .write err => err

/-- The calls of `fetchBoundary` that leave the program: `url.QueryEscape`,
`http.Get`, `json.Unmarshal` into an `OSMResponse`, `json.Marshal` of the
feature collection, `os.MkdirAll(path, perm)` and
`os.WriteFile(path, data, perm)`.  The two file-system calls return the new
state and the error, if any. -/
structure FetchEnv (α σ : Type) where
  queryEscape : String → String
  httpGet : String → Except String HttpResponse
  unmarshal : String → Except String (OSMResponse α)
  marshal : FeatureCollection α → Except String String
  mkdirAll : String → Nat → σ → σ × Option String
  writeFile : String → String → Nat → σ → σ × Option String

/-- Lines 42-48: the Overpass query, `%s` the country code and `%d` the
administrative level. -/
def overpassQuery (countryCode : String) (adminLevel : Int) : String :=
  "[out:json][timeout:90];\n\t\trelation[\"wikidata\"=\"" ++ countryCode
    ++ "\"];\n\t\tmap_to_area->.country;\n\t\t(\n\t\t\trelation(area.country)"
    ++ "[\"boundary\"=\"administrative\"][\"admin_level\"=\"" ++ toString adminLevel
    ++ "\"];\n\t\t);\n\t\tout geom;"

/-- Lines 50-51: the URL requested. -/
def apiURL (env : FetchEnv α σ) (countryCode : String) (adminLevel : Int) : String :=
  "https://overpass-api.de/api/interpreter?data="
    ++ env.queryEscape (overpassQuery countryCode adminLevel)

/-- The function `fetchBoundary`: the file-system state after the call and the
error returned (`none` for `nil`). -/
def fetchBoundary (env : FetchEnv α σ) (adminLevel : Int) (countryName countryCode : String)
    (fs : σ) : σ × Option FetchError :=
  match env.httpGet (apiURL env countryCode adminLevel) with
  | .error err => (fs, some (.transport err))
  | .ok resp =>
    if resp.StatusCode ≠ 200 then
      (fs, some (.status resp.StatusCode))
    else
      match resp.Body with
      | .error err => (fs, some (.read err))
      | .ok data =>
        match env.unmarshal data with
        | .error err => (fs, some (.decode err))
        | .ok osmResp =>
          let fc := assemble osmResp.Elements
          match env.marshal fc with
          | .error err => (fs, some (.marshal err))
          | .ok geojsonData =>
            let outputDir := "geojson/" ++ countryCode ++ "/" ++ toString adminLevel
            match env.mkdirAll outputDir 0o755 fs with
            | (fs, some err) => (fs, some (.mkdir err))
            | (fs, none) =>
              let outputFile := outputDir ++ "/boundary.geojson"
              match env.writeFile outputFile geojsonData 0o644 fs with
              | (fs, some err) => (fs, some (.write err))
              | (fs, none) => (fs, none)

/-! ## The inventory scan (main.go) -/

/-- The struct `Country` of the reference catalog. -/
structure Country where
  Country : String
  CountryLabel : String
  CountryID : String
deriving DecidableEq, Repr

/-- The struct `DownloadedBoundary`; `ModTime` is the formatted date. -/
structure DownloadedBoundary where
  CountryCode : String
  CountryLabel : String
  AdminLevel : Int
  FilePath : String
  FileSize : Int
  Features : Int
  ModTime : String
deriving DecidableEq, Repr

/-- The library call `strings.Split(s, sep)` for a separator of one character, on the characters
of `s`: the pieces between the separators, at least one piece. -/
def splitOnSep (sep : Char) : List Char → List (List Char)
  | [] => [[]]
  | c :: cs =>
    if c = sep then
      [] :: splitOnSep sep cs
    else
      match splitOnSep sep cs with
      | [] => [[c]]
      | part :: parts => (c :: part) :: parts

/-- The function `getQNumber` (main.go, lines 689-692):
`parts := strings.Split(countryID, "/")`, then `parts[len(parts)-1]`.  The
result is `none` when the index is out of range. -/
def getQNumber (countryID : String) : Option String :=
  let parts := splitOnSep '/' countryID.data
  (parts[parts.length - 1]?).map String.mk

/-- Lines 238-241: `countryMap[getQNumber(c.CountryID)] = c.CountryLabel` for
every country of the catalog, in order. -/
def buildCountryMap (countryMap : StrMap) : List Country → Option StrMap
  | [] => some countryMap
  | c :: rest =>
    match getQNumber c.CountryID with
    | none => none
    | some q => buildCountryMap (countryMap.insert q c.CountryLabel) rest

/-- An entry returned by `os.ReadDir`: `Name()` and `IsDir()`. -/
structure DirEntry where
  Name : String
  IsDir : Bool
deriving DecidableEq, Repr

/-- The `os.FileInfo` of the boundary file: `Size()` and
`ModTime().Format("2006-01-02")`. -/
structure FileInfo where
  Size : Int
  ModTime : String
deriving DecidableEq, Repr

/-- The outcome of `os.Stat`: the file information, an error for which
`os.IsNotExist` holds, or another error. -/
inductive StatResult where
  | ok (info : FileInfo)
  | notExist
  | failed
deriving DecidableEq, Repr

/-- The file-system reads of the scan: `os.Stat`, `os.ReadDir` (`none` on
error), `os.ReadFile` (`none` on error), and the JSON step of the feature count:
`featuresLen data = some n` when `data` decodes to an object whose `"features"`
member is an array of `n` entries. -/
structure ScanEnv where
  stat : String → StatResult
  readDir : String → Option (List DirEntry)
  readFile : String → Option String
  featuresLen : String → Option Nat

/-- The library call `filepath.Join`, on a system whose separator is `/`, on
path elements that are clean (non-empty names without a separator, other than
`.` and `..`, as `os.ReadDir` returns them): the elements joined by `/`. -/
def pathJoin (elems : List String) : String :=
  "/".intercalate elems

/-- The value of a string of decimal digits, `none` when a character is not a
digit. -/
def parseDigits (acc : Nat) : List Char → Option Nat
  | [] => some acc
  | c :: cs =>
    if '0' ≤ c ∧ c ≤ '9' then parseDigits (acc * 10 + (c.toNat - '0'.toNat)) cs else none

/-- The library call `strconv.Atoi` on a 64-bit platform: an optional sign, then one or more
decimal digits, and the value must fit an `int`; `none` for an error. -/
def atoi (s : String) : Option Int :=
  let (neg, digits) :=
    match s.data with
    | '-' :: rest => (true, rest)
    | '+' :: rest => (false, rest)
    | cs => (false, cs)
  if digits = [] then none
  else
    match parseDigits 0 digits with
    | none => none
    | some n =>
      let v : Int := if neg then -(n : Int) else (n : Int)
      if -9223372036854775808 ≤ v ∧ v ≤ 9223372036854775807 then some v else none

/-- Lines 284-292: the feature count of a boundary file, zero when the file
cannot be read or does not decode to an object with a `"features"` array. -/
def countFeatures (env : ScanEnv) (filePath : String) : Int :=
  match env.readFile filePath with
  | none => 0
  | some data =>
    match env.featuresLen data with
    | none => 0
    | some n => (n : Int)

/-- Lines 271-304: the loop over the level entries of one country directory. -/
def scanLevels (env : ScanEnv) (countryCode countryLabel countryPath : String)
    (downloaded : List DownloadedBoundary) : List DirEntry → List DownloadedBoundary
  | [] => downloaded
  | levelEntry :: rest =>
    if !levelEntry.IsDir then
      scanLevels env countryCode countryLabel countryPath downloaded rest
    else
      match atoi levelEntry.Name with
      | none => scanLevels env countryCode countryLabel countryPath downloaded rest
      | some level =>
        let filePath := pathJoin [countryPath, levelEntry.Name, "boundary.geojson"]
        match env.stat filePath with
        | .ok fileInfo =>
          let features := countFeatures env filePath
          scanLevels env countryCode countryLabel countryPath
            (downloaded ++ [{ CountryCode := countryCode, CountryLabel := countryLabel,
                              AdminLevel := level, FilePath := filePath,
                              FileSize := fileInfo.Size, Features := features,
                              ModTime := fileInfo.ModTime }]) rest
        | _ => scanLevels env countryCode countryLabel countryPath downloaded rest

/-- Lines 258-262: the label of a country code, the code itself when the map
has no (or an empty) label for it. -/
def labelOf (countryMap : StrMap) (countryCode : String) : String :=
  let countryLabel := (countryMap.lookup countryCode).getD ""
  if countryLabel = "" then countryCode else countryLabel

/-- Lines 253-305: the loop over the entries of the directory `geojson`. -/
def scanEntries (env : ScanEnv) (countryMap : StrMap)
    (downloaded : List DownloadedBoundary) : List DirEntry → List DownloadedBoundary
  | [] => downloaded
  | entry :: rest =>
    if !entry.IsDir then
      scanEntries env countryMap downloaded rest
    else
      let countryCode := entry.Name
      let countryLabel := labelOf countryMap countryCode
      let countryPath := pathJoin ["geojson", countryCode]
      match env.readDir countryPath with
      | none => scanEntries env countryMap downloaded rest
      | some levelEntries =>
        scanEntries env countryMap
          (scanLevels env countryCode countryLabel countryPath downloaded levelEntries) rest

/-- Lines 308-313: the `less` function given to `sort.Slice`. -/
def boundaryLess (a b : DownloadedBoundary) : Bool :=
  if a.CountryLabel = b.CountryLabel then
    decide (a.AdminLevel < b.AdminLevel)
  else
    decide (a.CountryLabel < b.CountryLabel)

/-- The slice `downloaded` when the function sorts it or returns early: empty
when `geojson` does not exist or cannot be listed, else the records of the scan. -/
def collected (env : ScanEnv) (countryMap : StrMap) : List DownloadedBoundary :=
  match env.stat "geojson" with
  | .notExist => []
  | _ =>
    match env.readDir "geojson" with
    | none => []
    | some entries => scanEntries env countryMap [] entries

/-- The function `getDownloadedBoundaries` (main.go, lines 234-316).
`sortSlice less xs` stands for `sort.Slice(xs, less)` of the standard library;
the result is `none` when `getQNumber` fails. -/
def getDownloadedBoundaries
    (sortSlice : (DownloadedBoundary → DownloadedBoundary → Bool)
      → List DownloadedBoundary → List DownloadedBoundary)
    (env : ScanEnv) (countries : List Country) : Option (List DownloadedBoundary) :=
  match buildCountryMap ∅ countries with
  | none => none
  | some countryMap =>
    match env.stat "geojson" with
    | .notExist => some []
    | _ =>
      match env.readDir "geojson" with
      | none => some []
      | some entries => some (sortSlice boundaryLess (scanEntries env countryMap [] entries))

/-! ## `sort.Slice` -/

/-- What `sort.Slice` asks of `less`: a strict weak ordering, given here as
asymmetry and negative transitivity. -/
structure StrictWeakOrder {β : Type} (less : β → β → Bool) : Prop where
  asymm : ∀ a b, less a b = true → less b a = false
  negTrans : ∀ a b c, less a b = false → less b c = false → less a c = false

/-- What `sort.Slice` gives: the result is a rearrangement of the slice, and for
a strict weak ordering no element is less than an element before it. -/
def SortsSlices {β : Type} (sortSlice : (β → β → Bool) → List β → List β) : Prop :=
  ∀ less : β → β → Bool, StrictWeakOrder less → ∀ xs : List β,
    (sortSlice less xs).Perm xs ∧ (sortSlice less xs).Pairwise (fun a b => less b a = false)

/-- One pass of the inner loop of the library's `insertionSortLessFunc`: the
new element `x` moves towards the front past every neighbour it is less than.
The sorted part is held back to front. -/
def bubble {β : Type} (less : β → β → Bool) (x : β) : List β → List β
  | [] => [x]
  | y :: ys => if less x y then y :: bubble less x ys else x :: y :: ys

/-- The library's `insertionSortLessFunc`, which `sort.Slice` runs on slices of
at most twelve elements. -/
def insertionSortLess {β : Type} (less : β → β → Bool) (data : List β) : List β :=
  (data.foldl (fun sortedRev x => bubble less x sortedRev) []).reverse

/-! ## Sample inputs -/

/-- An outer way whose three points do not close: (lat, lon) = (10, 20),
(11, 21), (12, 22). -/
def openOuter : Member Int :=
  { Typ := "way", Ref := 1, Role := "outer", Geometry := [⟨10, 20⟩, ⟨11, 21⟩, ⟨12, 22⟩] }

/-- An outer way whose last point repeats the first. -/
def closedOuter : Member Int :=
  { Typ := "way", Ref := 2, Role := "outer",
    Geometry := [⟨10, 20⟩, ⟨11, 21⟩, ⟨12, 22⟩, ⟨10, 20⟩] }

/-- An outer way without geometry. -/
def emptyOuter : Member Int :=
  { Typ := "way", Ref := 3, Role := "outer", Geometry := [] }

/-- An inner way with points. -/
def innerWay : Member Int :=
  { Typ := "way", Ref := 4, Role := "inner", Geometry := [⟨1, 2⟩, ⟨3, 4⟩] }

/-- A second outer way, with a single point. -/
def laterOuter : Member Int :=
  { Typ := "way", Ref := 5, Role := "outer", Geometry := [⟨7, 8⟩] }

/-- The tags `name=Utopia`, `admin_level=4`. -/
def sampleTags : StrMap :=
  (((∅ : StrMap).insert "admin_level" "4").insert "name" "Utopia")

/-- A relation made of the given members, tagged with `sampleTags`. -/
def relationOf (members : List (Member Int)) : Element Int :=
  { Typ := "relation", Id := 100, Tags := sampleTags, Members := members }

/-- A file-system state for the sample environment: the directories made and
the files written, newest first. -/
structure Disk where
  dirs : List String
  files : List (String × String)
deriving DecidableEq, Repr

/-- A sample environment of `fetchBoundary`: the server answers with the given
status, the decoder yields the given elements, and the file-system calls record
what they are asked to do. -/
def sampleFetchEnv (status : Int) (elements : List (Element Int)) : FetchEnv Int Disk :=
  { queryEscape := fun q => q
    httpGet := fun _ => .ok { StatusCode := status, Body := .ok "payload" }
    unmarshal := fun _ => .ok { Elements := elements }
    marshal := fun fc => .ok ("features:" ++ toString fc.Features.length)
    mkdirAll := fun path _ disk => ({ disk with dirs := path :: disk.dirs }, none)
    writeFile := fun path data _ disk => ({ disk with files := (path, data) :: disk.files }, none) }

/-- A catalog with one country, short code `Q30`. -/
def sampleCatalog : List Country :=
  [{ Country := "http://www.wikidata.org/entity/Q30", CountryLabel := "United States",
     CountryID := "http://www.wikidata.org/entity/Q30" }]

/-- A sample output tree: `geojson/Q30/2`, `geojson/US/10`, `geojson/US/2` and
`geojson/US/4` hold a boundary file, `geojson/US/notes` does not, and
`geojson/README.md` is a plain file.  Listings are in the order of the names, as
`os.ReadDir` gives them. -/
def sampleScanEnv : ScanEnv :=
  { stat := fun path =>
      if path = "geojson" then .ok ⟨4096, "2024-05-01"⟩
      else if path = "geojson/Q30/2/boundary.geojson" then .ok ⟨500, "2024-05-01"⟩
      else if path = "geojson/US/10/boundary.geojson" then .ok ⟨1000, "2024-05-02"⟩
      else if path = "geojson/US/2/boundary.geojson" then .ok ⟨200, "2024-05-03"⟩
      else if path = "geojson/US/4/boundary.geojson" then .ok ⟨400, "2024-05-04"⟩
      else .notExist
    readDir := fun path =>
      if path = "geojson" then some [⟨"Q30", true⟩, ⟨"README.md", false⟩, ⟨"US", true⟩]
      else if path = "geojson/Q30" then some [⟨"2", true⟩]
      else if path = "geojson/US" then some [⟨"10", true⟩, ⟨"2", true⟩, ⟨"4", true⟩, ⟨"notes", true⟩]
      else none
    readFile := fun path =>
      if path = "geojson/US/2/boundary.geojson" then some "two features"
      else if path = "geojson/US/4/boundary.geojson" then some "not json"
      else if path = "geojson/Q30/2/boundary.geojson" then some "one feature"
      else none
    featuresLen := fun data =>
      if data = "two features" then some 2
      else if data = "one feature" then some 1
      else none }

/-- The output tree with `geojson/US/2/boundary.geojson` and
`geojson/US/4/boundary.geojson` and nothing else; every boundary file decodes to
a collection of three features. -/
def usTreeEnv : ScanEnv :=
  { stat := fun path =>
      if path = "geojson" then .ok ⟨4096, "2024-06-01"⟩
      else if path = "geojson/US/4/boundary.geojson" then .ok ⟨400, "2024-06-04"⟩
      else if path = "geojson/US/2/boundary.geojson" then .ok ⟨200, "2024-06-02"⟩
      else .notExist
    readDir := fun path =>
      if path = "geojson" then some [⟨"US", true⟩]
      else if path = "geojson/US" then some [⟨"2", true⟩, ⟨"4", true⟩]
      else none
    readFile := fun path => some path
    featuresLen := fun _ => some 3 }

/-! ## Lemmas on the assembly loop -/

/-- The inner loop appends the positions of the points, longitude first. -/
theorem appendPoints_eq (coords : List (List α)) (geometry : List (Point α)) :
    appendPoints coords geometry = coords ++ geometry.map (fun p => [p.Lon, p.Lat]) := by
  unfold appendPoints
  induction geometry generalizing coords with
  | nil => simp
  | cons p ps ih => simp [ih]

/-- Members that are not an outer member with points leave `coords` untouched,
and the scan stops at the first member that is one. -/
theorem scanMembers_select (coords : List (List α)) (pre post : List (Member α))
    (m : Member α)
    (hpre : ∀ x ∈ pre, ¬ (x.Role = "outer" ∧ 0 < x.Geometry.length))
    (hrole : m.Role = "outer") (hlen : 0 < m.Geometry.length) :
    scanMembers coords (pre ++ m :: post)
      = coords ++ m.Geometry.map (fun p => [p.Lon, p.Lat]) := by
  induction pre with
  | nil => simp [scanMembers, hrole, hlen, appendPoints_eq]
  | cons x xs ih =>
    have hx := hpre x (List.mem_cons_self x xs)
    have hxs : ∀ y ∈ xs, ¬ (y.Role = "outer" ∧ 0 < y.Geometry.length) :=
      fun y hy => hpre y (List.mem_cons_of_mem x hy)
    simp only [List.cons_append, scanMembers]
    rw [if_neg (by simpa using hx)]
    exact ih hxs

/-- When no member is an outer member with points, the scan adds nothing. -/
theorem scanMembers_none (coords : List (List α)) (members : List (Member α))
    (h : ∀ x ∈ members, ¬ (x.Role = "outer" ∧ 0 < x.Geometry.length)) :
    scanMembers coords members = coords := by
  induction members with
  | nil => rfl
  | cons x xs ih =>
    have hx := h x (List.mem_cons_self x xs)
    simp only [scanMembers]
    rw [if_neg (by simpa using hx)]
    exact ih (fun y hy => h y (List.mem_cons_of_mem x hy))

/-- The scan yields a non-empty `coords` exactly when some member has role
`"outer"` and a non-empty geometry. -/
theorem collectCoords_length_pos_iff (members : List (Member α)) :
    0 < (collectCoords members).length
      ↔ ∃ m ∈ members, m.Role = "outer" ∧ 0 < m.Geometry.length := by
  unfold collectCoords
  induction members with
  | nil => simp [scanMembers]
  | cons x xs ih =>
    simp only [scanMembers]
    by_cases hx : x.Role = "outer" ∧ x.Geometry.length > 0
    · rw [if_pos hx, appendPoints_eq]
      constructor
      · intro _
        exact ⟨x, List.mem_cons_self x xs, hx.1, hx.2⟩
      · intro _
        simpa using hx.2
    · rw [if_neg hx, ih]
      constructor
      · rintro ⟨m, hm, h⟩
        exact ⟨m, List.mem_cons_of_mem x hm, h⟩
      · rintro ⟨m, hm, h⟩
        rcases List.mem_cons.mp hm with rfl | hm
        · exact absurd h hx
        · exact ⟨m, hm, h⟩

/-- The ring of positions of a point list whose end points differ is closed by
a copy of the first position. -/
theorem closeRing_open (geometry : List (Point α)) (first last : Point α)
    (hfirst : geometry.head? = some first) (hlast : geometry.getLast? = some last)
    (hdiff : first.Lat ≠ last.Lat ∨ first.Lon ≠ last.Lon) :
    closeRing (geometry.map (fun p => [p.Lon, p.Lat]))
      = geometry.map (fun p => [p.Lon, p.Lat]) ++ [[first.Lon, first.Lat]] := by
  have h1 : (geometry.map (fun p => [p.Lon, p.Lat])).head? = some [first.Lon, first.Lat] := by
    simp [List.head?_map, hfirst]
  have h2 : (geometry.map (fun p => [p.Lon, p.Lat])).getLast? = some [last.Lon, last.Lat] := by
    simp [List.getLast?_map, hlast]
  unfold closeRing
  rw [h1, h2]
  have : ([first.Lon, first.Lat][0]? ≠ [last.Lon, last.Lat][0]?
      ∨ [first.Lon, first.Lat][1]? ≠ [last.Lon, last.Lat][1]?) := by
    rcases hdiff with h | h
    · right; simpa using h
    · left; simpa using h
  simp only [if_pos this]

/-- The ring of positions of a point list whose end points agree is left as it
is. -/
theorem closeRing_closed (geometry : List (Point α)) (first last : Point α)
    (hfirst : geometry.head? = some first) (hlast : geometry.getLast? = some last)
    (hsame : first.Lat = last.Lat ∧ first.Lon = last.Lon) :
    closeRing (geometry.map (fun p => [p.Lon, p.Lat]))
      = geometry.map (fun p => [p.Lon, p.Lat]) := by
  have h1 : (geometry.map (fun p => [p.Lon, p.Lat])).head? = some [first.Lon, first.Lat] := by
    simp [List.head?_map, hfirst]
  have h2 : (geometry.map (fun p => [p.Lon, p.Lat])).getLast? = some [last.Lon, last.Lat] := by
    simp [List.getLast?_map, hlast]
  unfold closeRing
  rw [h1, h2]
  have : ¬ ([first.Lon, first.Lat][0]? ≠ [last.Lon, last.Lat][0]?
      ∨ [first.Lon, first.Lat][1]? ≠ [last.Lon, last.Lat][1]?) := by
    simp [hsame.1, hsame.2]
  simp only [if_neg this]

/-- Closing a ring keeps the ring and adds at most one pair at the end. -/
theorem closeRing_extends (coords : List (List α)) :
    ∃ closing : List (List α), closeRing coords = coords ++ closing ∧ closing.length ≤ 1 := by
  unfold closeRing
  split
  · rename_i first last _ _
    by_cases h : first[0]? ≠ last[0]? ∨ first[1]? ≠ last[1]?
    · exact ⟨[first], by rw [if_pos h], by simp⟩
    · exact ⟨[], by rw [if_neg h]; simp, by simp⟩
  · exact ⟨[], by simp, by simp⟩

/-- Setting properties touches the property map only. -/
theorem setProperties_eq (feature : Feature α) (tags : StrMap) :
    setProperties feature tags
      = { feature with
          Properties := tags.entries.foldl (fun s kv => s.insert kv.1 kv.2) feature.Properties } := by
  unfold setProperties
  generalize tags.entries = l
  induction l generalizing feature with
  | nil => rfl
  | cons kv l ih => simp only [List.foldl_cons]; rw [ih]; rfl

/-- Inserting the entries of a key-distinct list one after the other: a key of
the list gets its value of the list, every other key keeps its old value. -/
theorem lookup_foldl_insert (l : List (Sigma (fun _ : String => String)))
    (hl : l.NodupKeys) (s : StrMap) (k : String) :
    (l.foldl (fun s kv => s.insert kv.1 kv.2) s).lookup k
      = (l.dlookup k).orElse (fun _ => s.lookup k) := by
  induction l generalizing s with
  | nil => simp
  | cons kv l ih =>
    obtain ⟨a, b⟩ := kv
    rw [List.nodupKeys_cons] at hl
    simp only [List.foldl_cons]
    rw [ih hl.2]
    by_cases hk : k = a
    · subst hk
      have : l.dlookup k = none := List.dlookup_eq_none.mpr hl.1
      simp [this, AList.lookup_insert]
    · rw [List.dlookup_cons_ne l ⟨a, b⟩ hk, AList.lookup_insert_ne hk]

/-- The properties of a built feature are the tags. -/
theorem buildFeature_lookup (coords : List (List α)) (tags : StrMap) (k : String) :
    (buildFeature coords tags).Properties.lookup k = tags.lookup k := by
  unfold buildFeature
  simp only [setProperties_eq, NewFeature]
  rw [lookup_foldl_insert _ tags.nodupKeys]
  simp [AList.lookup]

/-- The geometry of a built feature is the polygon of the closed ring. -/
theorem buildFeature_geometry (coords : List (List α)) (tags : StrMap) :
    (buildFeature coords tags).Geometry = NewPolygonGeometry [closeRing coords]
      ∧ (buildFeature coords tags).Typ = "Feature" := by
  unfold buildFeature
  simp [setProperties_eq, NewFeature]

/-- The loop body on a relation whose first outer member with points is `m`. -/
theorem assembleElement_select (fc : FeatureCollection α) (e : Element α)
    (pre post : List (Member α)) (m : Member α)
    (hrel : e.Typ = "relation") (hmem : e.Members = pre ++ m :: post)
    (hpre : ∀ x ∈ pre, ¬ (x.Role = "outer" ∧ 0 < x.Geometry.length))
    (hrole : m.Role = "outer") (hlen : 0 < m.Geometry.length) :
    assembleElement fc e
      = fc.AddFeature (buildFeature (m.Geometry.map (fun p => [p.Lon, p.Lat])) e.Tags) := by
  have hc : collectCoords e.Members = m.Geometry.map (fun p => [p.Lon, p.Lat]) := by
    rw [hmem]
    unfold collectCoords
    rw [scanMembers_select [] pre post m hpre hrole hlen]
    simp
  unfold assembleElement
  simp only [hrel, if_true, hc]
  rw [if_pos (by simpa using hlen)]

/-- The features after a run of the loop: those present before, followed by one
feature for every element that is a relation with an outer member with points. -/
theorem foldl_assembleElement_features (es : List (Element α)) (fc : FeatureCollection α) :
    (es.foldl assembleElement fc).Features
      = fc.Features ++
        (es.filter (fun e => decide (e.Typ = "relation"
            ∧ ∃ m ∈ e.Members, m.Role = "outer" ∧ 0 < m.Geometry.length))).map
          (fun e => buildFeature (collectCoords e.Members) e.Tags) := by
  induction es generalizing fc with
  | nil => simp
  | cons e es ih =>
    simp only [List.foldl_cons]
    rw [ih]
    by_cases hrel : e.Typ = "relation"
    · by_cases hq : ∃ m ∈ e.Members, m.Role = "outer" ∧ 0 < m.Geometry.length
      · have hpos : (collectCoords e.Members).length > 0 :=
          (collectCoords_length_pos_iff e.Members).mpr hq
        have hd : decide (e.Typ = "relation"
            ∧ ∃ m ∈ e.Members, m.Role = "outer" ∧ 0 < m.Geometry.length) = true :=
          decide_eq_true ⟨hrel, hq⟩
        rw [List.filter_cons, if_pos hd]
        unfold assembleElement
        rw [if_pos hrel]
        simp only [if_pos hpos, FeatureCollection.AddFeature, List.map_cons,
          List.append_assoc, List.singleton_append]
      · have hpos : ¬ (collectCoords e.Members).length > 0 :=
          fun h => hq ((collectCoords_length_pos_iff e.Members).mp h)
        have hd : ¬ (decide (e.Typ = "relation"
            ∧ ∃ m ∈ e.Members, m.Role = "outer" ∧ 0 < m.Geometry.length) = true) := by
          simp only [decide_eq_true_eq]
          exact fun h => hq h.2
        rw [List.filter_cons, if_neg hd]
        unfold assembleElement
        rw [if_pos hrel]
        simp only [if_neg hpos]
    · have hd : ¬ (decide (e.Typ = "relation"
          ∧ ∃ m ∈ e.Members, m.Role = "outer" ∧ 0 < m.Geometry.length) = true) := by
        simp only [decide_eq_true_eq]
        exact fun h => hrel h.1
      rw [List.filter_cons, if_neg hd]
      unfold assembleElement
      rw [if_neg hrel]

/-! ## Lemmas on `fetchBoundary` -/

/-- With status 200 and a decodable body the sample run makes the directory
`geojson/Q1/4` and writes the boundary file. -/
theorem fetchBoundary_sample_ok :
    fetchBoundary (sampleFetchEnv 200 [relationOf [openOuter]]) 4 "Utopia" "Q1"
        ({ dirs := [], files := [] } : Disk)
      = ({ dirs := ["geojson/Q1/4"],
           files := [("geojson/Q1/4/boundary.geojson", "features:1")] }, none) := by
  decide

/-! ## Lemmas on the inventory scan -/

/-- The split returns at least one piece. -/
theorem splitOnSep_ne_nil (sep : Char) (cs : List Char) : splitOnSep sep cs ≠ [] := by
  cases cs with
  | nil => simp [splitOnSep]
  | cons c cs =>
    unfold splitOnSep
    split
    · simp
    · split <;> simp

/-- The index `len(parts)-1` of `getQNumber` is in range. -/
theorem getQNumber_isSome (countryID : String) : ∃ q, getQNumber countryID = some q := by
  unfold getQNumber
  have hne := splitOnSep_ne_nil '/' countryID.data
  have hlt : (splitOnSep '/' countryID.data).length - 1 < (splitOnSep '/' countryID.data).length := by
    have : 0 < (splitOnSep '/' countryID.data).length := List.length_pos.mpr hne
    omega
  refine ⟨String.mk ((splitOnSep '/' countryID.data)[(splitOnSep '/' countryID.data).length - 1]), ?_⟩
  simp [List.getElem?_eq_getElem hlt]

/-- The shape of a split: the first piece has no separator, and either it is the
whole input, or the last piece has no separator and the input is that piece
after a part that ends with the separator. -/
theorem splitOnSep_shape (sep : Char) (cs : List Char) :
    ∃ (first : List Char) (rest : List (List Char)),
      splitOnSep sep cs = first :: rest ∧ sep ∉ first
        ∧ ((rest = [] ∧ cs = first)
          ∨ ∃ (pre last : List Char), rest.getLast? = some last ∧ cs = pre ++ last
              ∧ pre.getLast? = some sep ∧ sep ∉ last) := by
  induction cs with
  | nil => exact ⟨[], [], rfl, by simp, Or.inl ⟨rfl, rfl⟩⟩
  | cons c cs ih =>
    obtain ⟨first, rest, hsplit, hfirst, hcase⟩ := ih
    by_cases hc : c = sep
    · refine ⟨[], first :: rest, ?_, by simp, Or.inr ?_⟩
      · unfold splitOnSep
        rw [if_pos hc, hsplit]
      · rcases hcase with ⟨hrest, hcs⟩ | ⟨pre, last, hlast, hcs, hpre, hsep⟩
        · refine ⟨[c], first, ?_, ?_, ?_, hfirst⟩
          · rw [hrest]; rfl
          · rw [hcs]; rfl
          · rw [hc]; rfl
        · refine ⟨c :: pre, last, ?_, ?_, ?_, hsep⟩
          · cases rest with
            | nil => simp at hlast
            | cons r rs => rw [List.getLast?_cons_cons]; exact hlast
          · rw [hcs]; rfl
          · cases pre with
            | nil => simp at hpre
            | cons a as => rw [List.getLast?_cons_cons]; exact hpre
    · refine ⟨c :: first, rest, ?_, ?_, ?_⟩
      · unfold splitOnSep
        rw [if_neg hc, hsplit]
      · intro hmem
        rcases List.mem_cons.mp hmem with h | h
        · exact hc h.symm
        · exact hfirst h
      · rcases hcase with ⟨hrest, hcs⟩ | ⟨pre, last, hlast, hcs, hpre, hsep⟩
        · exact Or.inl ⟨hrest, by rw [hcs]⟩
        · refine Or.inr ⟨c :: pre, last, hlast, by rw [hcs]; rfl, ?_, hsep⟩
          cases pre with
          | nil => simp at hpre
          | cons a as => rw [List.getLast?_cons_cons]; exact hpre

/-- The last piece of a split has no separator, and the input is that piece
after a part that is empty or ends with the separator. -/
theorem splitOnSep_getLast (sep : Char) (cs : List Char) :
    ∃ (pre last : List Char), (splitOnSep sep cs).getLast? = some last ∧ cs = pre ++ last
      ∧ (pre = [] ∨ pre.getLast? = some sep) ∧ sep ∉ last := by
  obtain ⟨first, rest, hsplit, hfirst, hcase⟩ := splitOnSep_shape sep cs
  rcases hcase with ⟨hrest, hcs⟩ | ⟨pre, last, hlast, hcs, hpre, hsep⟩
  · refine ⟨[], first, ?_, by simpa using hcs, Or.inl rfl, hfirst⟩
    rw [hsplit, hrest]; rfl
  · refine ⟨pre, last, ?_, hcs, Or.inr hpre, hsep⟩
    rw [hsplit]
    cases rest with
    | nil => simp at hlast
    | cons r rs => rw [List.getLast?_cons_cons]; exact hlast

/-- The country map is always built. -/
theorem buildCountryMap_isSome (countries : List Country) (countryMap : StrMap) :
    ∃ m, buildCountryMap countryMap countries = some m := by
  induction countries generalizing countryMap with
  | nil => exact ⟨countryMap, rfl⟩
  | cons c rest ih =>
    obtain ⟨q, hq⟩ := getQNumber_isSome c.CountryID
    unfold buildCountryMap
    rw [hq]
    exact ih _

/-- A code that is the short code of no catalog entry is not a key of the
country map. -/
theorem buildCountryMap_lookup_none (countries : List Country) (countryMap m : StrMap)
    (code : String) (h0 : countryMap.lookup code = none)
    (h : ∀ c ∈ countries, getQNumber c.CountryID ≠ some code)
    (hb : buildCountryMap countryMap countries = some m) : m.lookup code = none := by
  induction countries generalizing countryMap with
  | nil =>
    simp only [buildCountryMap, Option.some.injEq] at hb
    rw [← hb]; exact h0
  | cons c rest ih =>
    unfold buildCountryMap at hb
    cases hq : getQNumber c.CountryID with
    | none => rw [hq] at hb; simp at hb
    | some q =>
      rw [hq] at hb
      have hne : code ≠ q := by
        intro hcq
        exact h c (List.mem_cons_self c rest) (by rw [hq, hcq])
      apply ih (countryMap.insert q c.CountryLabel)
      · rw [AList.lookup_insert_ne hne]; exact h0
      · exact fun c' hc' => h c' (List.mem_cons_of_mem c hc')
      · exact hb

/-- The level loop keeps the records it starts with. -/
theorem scanLevels_keeps (env : ScanEnv) (code label path : String)
    (levels : List DirEntry) (downloaded : List DownloadedBoundary) (r : DownloadedBoundary)
    (hr : r ∈ downloaded) : r ∈ scanLevels env code label path downloaded levels := by
  induction levels generalizing downloaded with
  | nil => exact hr
  | cons l rest ih =>
    unfold scanLevels
    split
    · exact ih downloaded hr
    · split
      · exact ih downloaded hr
      · dsimp only
        split
        · exact ih _ (List.mem_append_left _ hr)
        · exact ih downloaded hr

/-- The level loop records every numeric level directory that holds the
boundary file. -/
theorem scanLevels_records (env : ScanEnv) (code label path : String)
    (levels : List DirEntry) (downloaded : List DownloadedBoundary)
    (level : DirEntry) (n : Int) (info : FileInfo)
    (hlevel : level ∈ levels) (hdir : level.IsDir = true) (hnum : atoi level.Name = some n)
    (hfile : env.stat (pathJoin [path, level.Name, "boundary.geojson"]) = .ok info) :
    { CountryCode := code, CountryLabel := label, AdminLevel := n,
      FilePath := pathJoin [path, level.Name, "boundary.geojson"],
      FileSize := info.Size,
      Features := countFeatures env (pathJoin [path, level.Name, "boundary.geojson"]),
      ModTime := info.ModTime } ∈ scanLevels env code label path downloaded levels := by
  induction levels generalizing downloaded with
  | nil => simp at hlevel
  | cons l rest ih =>
    rcases List.mem_cons.mp hlevel with rfl | hmem
    · unfold scanLevels
      simp only [hdir, Bool.not_true, Bool.false_eq_true, if_false, hnum, hfile]
      apply scanLevels_keeps
      simp
    · unfold scanLevels
      split
      · exact ih downloaded hmem
      · split
        · exact ih downloaded hmem
        · dsimp only
          split
          · exact ih _ hmem
          · exact ih downloaded hmem

/-- The entry loop keeps the records it starts with. -/
theorem scanEntries_keeps (env : ScanEnv) (countryMap : StrMap)
    (entries : List DirEntry) (downloaded : List DownloadedBoundary) (r : DownloadedBoundary)
    (hr : r ∈ downloaded) : r ∈ scanEntries env countryMap downloaded entries := by
  induction entries generalizing downloaded with
  | nil => exact hr
  | cons e rest ih =>
    unfold scanEntries
    split
    · exact ih downloaded hr
    · simp only
      split
      · exact ih downloaded hr
      · exact ih _ (scanLevels_keeps env _ _ _ _ downloaded r hr)

/-- The entry loop records, for a country directory that can be listed, every
numeric level directory that holds the boundary file. -/
theorem scanEntries_records (env : ScanEnv) (countryMap : StrMap)
    (entries : List DirEntry) (downloaded : List DownloadedBoundary)
    (entry level : DirEntry) (levels : List DirEntry) (n : Int) (info : FileInfo)
    (hentry : entry ∈ entries) (hisdir : entry.IsDir = true)
    (hlevels : env.readDir (pathJoin ["geojson", entry.Name]) = some levels)
    (hlevel : level ∈ levels) (hdir : level.IsDir = true) (hnum : atoi level.Name = some n)
    (hfile : env.stat (pathJoin [pathJoin ["geojson", entry.Name], level.Name,
      "boundary.geojson"]) = .ok info) :
    { CountryCode := entry.Name, CountryLabel := labelOf countryMap entry.Name, AdminLevel := n,
      FilePath := pathJoin [pathJoin ["geojson", entry.Name], level.Name, "boundary.geojson"],
      FileSize := info.Size,
      Features := countFeatures env
        (pathJoin [pathJoin ["geojson", entry.Name], level.Name, "boundary.geojson"]),
      ModTime := info.ModTime } ∈ scanEntries env countryMap downloaded entries := by
  induction entries generalizing downloaded with
  | nil => simp at hentry
  | cons e rest ih =>
    rcases List.mem_cons.mp hentry with rfl | hmem
    · unfold scanEntries
      simp only [hisdir, Bool.not_true, Bool.false_eq_true, if_false, hlevels]
      apply scanEntries_keeps
      exact scanLevels_records env _ _ _ levels downloaded level n info hlevel hdir hnum hfile
    · unfold scanEntries
      split
      · exact ih downloaded hmem
      · simp only
        split
        · exact ih downloaded hmem
        · exact ih _ hmem

/-- When `less` says no: the second record is not after the first in the order
by label, then level. -/
theorem boundaryLess_eq_false_iff (a b : DownloadedBoundary) :
    boundaryLess a b = false
      ↔ b.CountryLabel < a.CountryLabel
        ∨ (b.CountryLabel = a.CountryLabel ∧ b.AdminLevel ≤ a.AdminLevel) := by
  unfold boundaryLess
  by_cases h : a.CountryLabel = b.CountryLabel
  · simp only [if_pos h, decide_eq_false_iff_not, not_lt]
    constructor
    · intro hle; exact Or.inr ⟨h.symm, hle⟩
    · rintro (hlt | ⟨_, hle⟩)
      · rw [h] at hlt; exact absurd hlt (lt_irrefl _)
      · exact hle
  · simp only [if_neg h, decide_eq_false_iff_not, not_lt]
    constructor
    · intro hle
      exact Or.inl (lt_of_le_of_ne hle (fun e => h e.symm))
    · rintro (hlt | ⟨he, _⟩)
      · exact le_of_lt hlt
      · exact absurd he.symm h

/-- The `less` function of the scan is a strict weak ordering. -/
theorem boundaryLess_strictWeakOrder : StrictWeakOrder boundaryLess := by
  constructor
  · intro a b hab
    rw [boundaryLess_eq_false_iff]
    unfold boundaryLess at hab
    by_cases h : a.CountryLabel = b.CountryLabel
    · simp only [if_pos h, decide_eq_true_eq] at hab
      exact Or.inr ⟨h, le_of_lt hab⟩
    · simp only [if_neg h, decide_eq_true_eq] at hab
      exact Or.inl hab
  · intro a b c hab hbc
    rw [boundaryLess_eq_false_iff] at hab hbc ⊢
    rcases hab with h1 | ⟨h1, h2⟩ <;> rcases hbc with h3 | ⟨h3, h4⟩
    · exact Or.inl (lt_trans h3 h1)
    · exact Or.inl (by rw [h3]; exact h1)
    · exact Or.inl (by rw [← h1]; exact h3)
    · exact Or.inr ⟨h3.trans h1, le_trans h4 h2⟩

/-! ## Lemmas on insertion sort -/

/-- Moving the new element into place rearranges the sorted part with the new
element. -/
theorem bubble_perm {β : Type} (less : β → β → Bool) (x : β) (l : List β) :
    (bubble less x l).Perm (x :: l) := by
  induction l with
  | nil => exact List.Perm.refl _
  | cons y ys ih =>
    unfold bubble
    split
    · exact (List.Perm.cons y ih).trans (List.Perm.swap x y ys)
    · exact List.Perm.refl _

/-- Moving the new element into place keeps the sorted part sorted (held back
to front: no element is less than an element after it in the list). -/
theorem bubble_pairwise {β : Type} (less : β → β → Bool) (h : StrictWeakOrder less)
    (x : β) (l : List β) (hl : l.Pairwise (fun a b => less a b = false)) :
    (bubble less x l).Pairwise (fun a b => less a b = false) := by
  induction l with
  | nil => simp [bubble]
  | cons y ys ih =>
    rw [List.pairwise_cons] at hl
    unfold bubble
    split
    · rename_i hxy
      rw [List.pairwise_cons]
      refine ⟨?_, ih hl.2⟩
      intro z hz
      rcases List.mem_cons.mp ((bubble_perm less x ys).mem_iff.mp hz) with rfl | hz
      · exact h.asymm _ _ hxy
      · exact hl.1 z hz
    · rename_i hxy
      have hxy : less x y = false := by simpa using hxy
      rw [List.pairwise_cons]
      refine ⟨?_, List.pairwise_cons.mpr hl⟩
      intro z hz
      rcases List.mem_cons.mp hz with rfl | hz
      · exact hxy
      · exact h.negTrans x y z hxy (hl.1 z hz)

/-- The sorted part after the outer loop of insertion sort. -/
theorem foldl_bubble {β : Type} (less : β → β → Bool) (h : StrictWeakOrder less)
    (data acc : List β) (hacc : acc.Pairwise (fun a b => less a b = false)) :
    (data.foldl (fun sortedRev x => bubble less x sortedRev) acc).Perm (data.reverse ++ acc)
      ∧ (data.foldl (fun sortedRev x => bubble less x sortedRev) acc).Pairwise
          (fun a b => less a b = false) := by
  induction data generalizing acc with
  | nil => exact ⟨by simp, hacc⟩
  | cons x xs ih =>
    simp only [List.foldl_cons]
    obtain ⟨hp, hs⟩ := ih (bubble less x acc) (bubble_pairwise less h x acc hacc)
    refine ⟨?_, hs⟩
    refine hp.trans ?_
    simp only [List.reverse_cons, List.append_assoc, List.singleton_append]
    exact List.Perm.append_left _ (bubble_perm less x acc)

/-- Insertion sort keeps the promise of `sort.Slice`. -/
theorem insertionSortLess_sortsSlices {β : Type} :
    SortsSlices (insertionSortLess : (β → β → Bool) → List β → List β) := by
  intro less h xs
  obtain ⟨hp, hs⟩ := foldl_bubble less h xs [] List.Pairwise.nil
  unfold insertionSortLess
  constructor
  · refine (List.reverse_perm _).trans (hp.trans ?_)
    simp
  · rw [List.pairwise_reverse]
    exact hs

/-! ## The claims -/

/-- C1: in a relation whose selected outer member (the first member with role
"outer" and a non-empty point list) has end points that differ in latitude or in
longitude, the loop body adds one feature whose single ring has one pair more
than the member has points, and the first and the last pair of the ring are the
same pair `[lon, lat]` of the member's first point. -/
theorem ring_closed_when_endpoints_differ (fc : FeatureCollection α) (e : Element α)
    (pre post : List (Member α)) (m : Member α) (first last : Point α)
    (hrel : e.Typ = "relation") (hmem : e.Members = pre ++ m :: post)
    (hpre : ∀ x ∈ pre, ¬ (x.Role = "outer" ∧ 0 < x.Geometry.length))
    (hrole : m.Role = "outer")
    (hfirst : m.Geometry.head? = some first) (hlast : m.Geometry.getLast? = some last)
    (hdiff : first.Lat ≠ last.Lat ∨ first.Lon ≠ last.Lon) :
    ∃ (feature : Feature α) (ring : List (List α)),
      (assembleElement fc e).Features = fc.Features ++ [feature]
        ∧ feature.Geometry.Polygon = [ring]
        ∧ ring.length = m.Geometry.length + 1
        ∧ ring.head? = some [first.Lon, first.Lat]
        ∧ ring.getLast? = some [first.Lon, first.Lat]
        ∧ ring.head? = ring.getLast? := by
  have hlen : 0 < m.Geometry.length := by
    cases hg : m.Geometry with
    | nil => rw [hg] at hfirst; simp at hfirst
    | cons p ps => simp
  refine ⟨buildFeature (m.Geometry.map (fun p => [p.Lon, p.Lat])) e.Tags,
    m.Geometry.map (fun p => [p.Lon, p.Lat]) ++ [[first.Lon, first.Lat]], ?_, ?_, ?_, ?_, ?_, ?_⟩
  · rw [assembleElement_select fc e pre post m hrel hmem hpre hrole hlen]
    rfl
  · rw [(buildFeature_geometry _ _).1, closeRing_open m.Geometry first last hfirst hlast hdiff]
    rfl
  · simp
  · simp [List.head?_append, List.head?_map, hfirst]
  · simp
  · simp [List.head?_append, List.head?_map, hfirst]

/-- C1 at the sample relation with members inner way, open outer way: the ring
has 3 + 1 pairs and starts and ends with [20, 10]. -/
theorem ring_closed_when_endpoints_differ_witness :
    ∃ (feature : Feature Int) (ring : List (List Int)),
      (assembleElement NewFeatureCollection (relationOf [innerWay, openOuter])).Features
          = (NewFeatureCollection : FeatureCollection Int).Features ++ [feature]
        ∧ feature.Geometry.Polygon = [ring]
        ∧ ring.length = openOuter.Geometry.length + 1
        ∧ ring.head? = some [20, 10]
        ∧ ring.getLast? = some [20, 10]
        ∧ ring.head? = ring.getLast? :=
  ring_closed_when_endpoints_differ NewFeatureCollection (relationOf [innerWay, openOuter])
    [innerWay] [] openOuter ⟨10, 20⟩ ⟨12, 22⟩ rfl rfl (by decide) rfl rfl rfl (by decide)

/-- C2: in a relation whose selected outer member has a non-empty point list
with equal first and last point (a one-point list included), no closing pair is
appended: the single ring of the added feature is the list of the member's
positions, of the same length as the point list. -/
theorem ring_unchanged_when_endpoints_equal (fc : FeatureCollection α) (e : Element α)
    (pre post : List (Member α)) (m : Member α) (first last : Point α)
    (hrel : e.Typ = "relation") (hmem : e.Members = pre ++ m :: post)
    (hpre : ∀ x ∈ pre, ¬ (x.Role = "outer" ∧ 0 < x.Geometry.length))
    (hrole : m.Role = "outer")
    (hfirst : m.Geometry.head? = some first) (hlast : m.Geometry.getLast? = some last)
    (hsame : first.Lat = last.Lat ∧ first.Lon = last.Lon) :
    ∃ (feature : Feature α) (ring : List (List α)),
      (assembleElement fc e).Features = fc.Features ++ [feature]
        ∧ feature.Geometry.Polygon = [ring]
        ∧ ring = m.Geometry.map (fun p => [p.Lon, p.Lat])
        ∧ ring.length = m.Geometry.length := by
  have hlen : 0 < m.Geometry.length := by
    cases hg : m.Geometry with
    | nil => rw [hg] at hfirst; simp at hfirst
    | cons p ps => simp
  refine ⟨buildFeature (m.Geometry.map (fun p => [p.Lon, p.Lat])) e.Tags,
    m.Geometry.map (fun p => [p.Lon, p.Lat]), ?_, ?_, rfl, ?_⟩
  · rw [assembleElement_select fc e pre post m hrel hmem hpre hrole hlen]
    rfl
  · rw [(buildFeature_geometry _ _).1, closeRing_closed m.Geometry first last hfirst hlast hsame]
    rfl
  · simp

/-- C2 at the one-point outer way `laterOuter`: the ring is the single pair
[8, 7]. -/
theorem ring_unchanged_when_endpoints_equal_witness :
    ∃ (feature : Feature Int) (ring : List (List Int)),
      (assembleElement NewFeatureCollection (relationOf [laterOuter])).Features
          = (NewFeatureCollection : FeatureCollection Int).Features ++ [feature]
        ∧ feature.Geometry.Polygon = [ring]
        ∧ ring = [[8, 7]]
        ∧ ring.length = 1 :=
  ring_unchanged_when_endpoints_equal NewFeatureCollection (relationOf [laterOuter])
    [] [] laterOuter ⟨7, 8⟩ ⟨7, 8⟩ rfl rfl (by decide) rfl rfl rfl (by decide)

/-- C3: when a relation has a member with role "outer" and a non-empty point
list, `coords` after the scan of the members (before any closing pair) is the
point list of the first such member with every point (lat, lon) turned into the
pair [lon, lat], in the same order and of the same length; the ring of the
feature that is emitted is this list followed by at most one closing pair. -/
theorem coords_are_swapped_points (fc : FeatureCollection α) (e : Element α)
    (pre post : List (Member α)) (m : Member α)
    (hrel : e.Typ = "relation") (hmem : e.Members = pre ++ m :: post)
    (hpre : ∀ x ∈ pre, ¬ (x.Role = "outer" ∧ 0 < x.Geometry.length))
    (hrole : m.Role = "outer") (hlen : 0 < m.Geometry.length) :
    collectCoords e.Members = m.Geometry.map (fun p => [p.Lon, p.Lat])
      ∧ (collectCoords e.Members).length = m.Geometry.length
      ∧ (∀ (i : Nat) (p : Point α), m.Geometry[i]? = some p →
          (collectCoords e.Members)[i]? = some [p.Lon, p.Lat])
      ∧ ∃ (feature : Feature α) (closing : List (List α)),
          (assembleElement fc e).Features = fc.Features ++ [feature]
            ∧ feature.Geometry.Polygon = [m.Geometry.map (fun p => [p.Lon, p.Lat]) ++ closing]
            ∧ closing.length ≤ 1 := by
  have hc : collectCoords e.Members = m.Geometry.map (fun p => [p.Lon, p.Lat]) := by
    rw [hmem]
    unfold collectCoords
    rw [scanMembers_select [] pre post m hpre hrole hlen]
    simp
  refine ⟨hc, ?_, ?_, ?_⟩
  · rw [hc]; simp
  · intro i p hp
    rw [hc]
    simp [List.getElem?_map, hp]
  · obtain ⟨closing, hcl, hle⟩ := closeRing_extends (m.Geometry.map (fun p => [p.Lon, p.Lat]))
    refine ⟨buildFeature (m.Geometry.map (fun p => [p.Lon, p.Lat])) e.Tags, closing, ?_, ?_, hle⟩
    · rw [assembleElement_select fc e pre post m hrel hmem hpre hrole hlen]
      rfl
    · rw [(buildFeature_geometry _ _).1, hcl]
      rfl

/-- C3 at a relation whose members are an outer way without points, an inner
way, the open outer way and a later outer way: the point (lat 10, lon 20) of the
open outer way appears as [20, 10]. -/
theorem coords_are_swapped_points_witness :
    collectCoords (relationOf [emptyOuter, innerWay, openOuter, laterOuter]).Members
        = [[20, 10], [21, 11], [22, 12]]
      ∧ (collectCoords (relationOf [emptyOuter, innerWay, openOuter, laterOuter]).Members).length
        = 3
      ∧ (∀ (i : Nat) (p : Point Int), openOuter.Geometry[i]? = some p →
          (collectCoords (relationOf [emptyOuter, innerWay, openOuter, laterOuter]).Members)[i]?
            = some [p.Lon, p.Lat])
      ∧ ∃ (feature : Feature Int) (closing : List (List Int)),
          (assembleElement NewFeatureCollection
              (relationOf [emptyOuter, innerWay, openOuter, laterOuter])).Features
              = (NewFeatureCollection : FeatureCollection Int).Features ++ [feature]
            ∧ feature.Geometry.Polygon = [[[20, 10], [21, 11], [22, 12]] ++ closing]
            ∧ closing.length ≤ 1 :=
  coords_are_swapped_points NewFeatureCollection
    (relationOf [emptyOuter, innerWay, openOuter, laterOuter])
    [emptyOuter, innerWay] [laterOuter] openOuter rfl rfl (by decide) rfl (by decide)

/-- C4: an element none of whose members has role "outer", or whose members
with role "outer" all have an empty point list, adds no feature: the loop body
returns the feature collection as it was. -/
theorem no_feature_without_outer_points (fc : FeatureCollection α) (e : Element α)
    (h : ∀ m ∈ e.Members, m.Role = "outer" → m.Geometry = []) :
    assembleElement fc e = fc := by
  have hc : collectCoords e.Members = [] := by
    unfold collectCoords
    apply scanMembers_none
    intro x hx hcon
    have := h x hx hcon.1
    rw [this] at hcon
    simp at hcon
  unfold assembleElement
  simp [hc]

/-- C4 at a relation whose only outer member has no points (beside an inner
way with points). -/
theorem no_feature_without_outer_points_witness :
    assembleElement (NewFeatureCollection : FeatureCollection Int)
        (relationOf [innerWay, emptyOuter]) = NewFeatureCollection :=
  no_feature_without_outer_points NewFeatureCollection (relationOf [innerWay, emptyOuter])
    (by decide)

/-- C5: the features of the collection built from the decoded elements are, in
the order of the elements, one feature for each element whose kind is
"relation" and that has a member with role "outer" and a non-empty point list,
namely the feature built from that element, and nothing else; so there are as
many features as such elements. -/
theorem features_in_element_order (es : List (Element α)) :
    (assemble es).Features
        = (es.filter (fun e => decide (e.Typ = "relation"
            ∧ ∃ m ∈ e.Members, m.Role = "outer" ∧ 0 < m.Geometry.length))).map
          (fun e => buildFeature (collectCoords e.Members) e.Tags)
      ∧ (assemble es).Features.length
        = es.countP (fun e => decide (e.Typ = "relation"
            ∧ ∃ m ∈ e.Members, m.Role = "outer" ∧ 0 < m.Geometry.length)) := by
  have h := foldl_assembleElement_features es (NewFeatureCollection : FeatureCollection α)
  have h1 : (assemble es).Features
        = (es.filter (fun e => decide (e.Typ = "relation"
            ∧ ∃ m ∈ e.Members, m.Role = "outer" ∧ 0 < m.Geometry.length))).map
          (fun e => buildFeature (collectCoords e.Members) e.Tags) := by
    unfold assemble
    rw [h]
    simp [NewFeatureCollection]
  refine ⟨h1, ?_⟩
  rw [h1, List.length_map, List.countP_eq_length_filter]

/-- C5 at three elements, a way (not a relation) with an outer member, a
relation with an outer member and a relation with an inner member only: one
feature, that of the second element. -/
theorem features_in_element_order_witness :
    (assemble [{ relationOf [closedOuter] with Typ := "way" }, relationOf [openOuter],
        relationOf [innerWay]]).Features
      = [buildFeature (collectCoords (relationOf [openOuter]).Members)
          (relationOf [openOuter]).Tags] :=
  (features_in_element_order [{ relationOf [closedOuter] with Typ := "way" },
    relationOf [openOuter], relationOf [innerWay]]).1.trans (by decide)

/-- C6, counterexample: in the relation whose members are an outer way without
points followed by an outer way with the point (lat 7, lon 8), the first member
with role "outer" is the one without points, yet a feature is emitted and its
ring is built from the later outer member. -/
theorem first_outer_not_always_used :
    (relationOf [emptyOuter, laterOuter]).Members.find? (fun m => decide (m.Role = "outer"))
        = some emptyOuter
      ∧ collectCoords (relationOf [emptyOuter, laterOuter]).Members
        ≠ emptyOuter.Geometry.map (fun p => [p.Lon, p.Lat])
      ∧ collectCoords (relationOf [emptyOuter, laterOuter]).Members
        = laterOuter.Geometry.map (fun p => [p.Lon, p.Lat])
      ∧ (assembleElement NewFeatureCollection (relationOf [emptyOuter, laterOuter])).Features.map
          (fun f => f.Geometry.Polygon) = [[[[8, 7]]]] := by
  refine ⟨by decide, by decide, by decide, by decide⟩

/-- C6, amended: only the first member with role "outer" and a non-empty point
list is used.  The loop body does on the element what it does on the same
element with that member as its only member: members before it (outer members
without points included) and all members after it are ignored, and the ring
before closing is the list of that member's positions. -/
theorem only_first_outer_with_points_used (fc : FeatureCollection α) (e : Element α)
    (pre post : List (Member α)) (m : Member α)
    (hmem : e.Members = pre ++ m :: post)
    (hpre : ∀ x ∈ pre, ¬ (x.Role = "outer" ∧ 0 < x.Geometry.length))
    (hrole : m.Role = "outer") (hlen : 0 < m.Geometry.length) :
    assembleElement fc e = assembleElement fc { e with Members := [m] }
      ∧ collectCoords e.Members = collectCoords [m]
      ∧ collectCoords [m] = m.Geometry.map (fun p => [p.Lon, p.Lat]) := by
  have hc : collectCoords e.Members = m.Geometry.map (fun p => [p.Lon, p.Lat]) := by
    rw [hmem]
    unfold collectCoords
    rw [scanMembers_select [] pre post m hpre hrole hlen]
    simp
  have hm : collectCoords [m] = m.Geometry.map (fun p => [p.Lon, p.Lat]) := by
    unfold collectCoords
    have := scanMembers_select [] [] [] m (by simp) hrole hlen
    simpa using this
  refine ⟨?_, hc.trans hm.symm, hm⟩
  unfold assembleElement
  simp only [hc, hm]

/-- C6, amended, at the relation with members outer way without points, inner
way, open outer way, later outer way: the result is that of the relation with
the open outer way alone. -/
theorem only_first_outer_with_points_used_witness :
    assembleElement (NewFeatureCollection : FeatureCollection Int)
        (relationOf [emptyOuter, innerWay, openOuter, laterOuter])
        = assembleElement NewFeatureCollection
            { relationOf [emptyOuter, innerWay, openOuter, laterOuter] with
              Members := [openOuter] }
      ∧ collectCoords (relationOf [emptyOuter, innerWay, openOuter, laterOuter]).Members
        = collectCoords [openOuter]
      ∧ collectCoords [openOuter] = [[20, 10], [21, 11], [22, 12]] :=
  only_first_outer_with_points_used NewFeatureCollection
    (relationOf [emptyOuter, innerWay, openOuter, laterOuter])
    [emptyOuter, innerWay] [laterOuter] openOuter rfl (by decide) rfl (by decide)

/-- C7: when the loop body adds a feature for an element, the property map of
that feature is the tag map of the element: every key has the same value (or
none) in both, and an element without tags gives a feature without
properties. -/
theorem properties_equal_tags (fc : FeatureCollection α) (e : Element α) (f : Feature α)
    (h : assembleElement fc e = fc.AddFeature f) :
    (∀ k : String, f.Properties.lookup k = e.Tags.lookup k)
      ∧ (∀ k : String, k ∈ f.Properties.keys ↔ k ∈ e.Tags.keys)
      ∧ (e.Tags.entries = [] → f.Properties.entries = []) := by
  have hf : f = buildFeature (collectCoords e.Members) e.Tags := by
    unfold assembleElement at h
    by_cases hrel : e.Typ = "relation"
    · by_cases hpos : (collectCoords e.Members).length > 0
      · simp only [if_pos hrel, if_pos hpos, FeatureCollection.AddFeature] at h
        have h2 := congrArg FeatureCollection.Features h
        simp only [List.append_cancel_left_eq, List.cons.injEq, and_true] at h2
        exact h2.symm
      · simp only [if_pos hrel, if_neg hpos, FeatureCollection.AddFeature] at h
        have h2 := congrArg (fun c => c.Features.length) h
        simp at h2
    · simp only [if_neg hrel, FeatureCollection.AddFeature] at h
      have h2 := congrArg (fun c => c.Features.length) h
      simp at h2
  have hl : ∀ k : String, f.Properties.lookup k = e.Tags.lookup k := by
    intro k
    rw [hf]
    exact buildFeature_lookup _ _ k
  refine ⟨hl, ?_, ?_⟩
  · intro k
    rw [← AList.mem_keys, ← AList.mem_keys, ← AList.lookup_isSome, ← AList.lookup_isSome, hl k]
  · intro he
    rw [hf]
    unfold buildFeature
    simp only [setProperties_eq, he, List.foldl_nil, NewFeature]
    rfl

/-- C7 at the sample relation with the open outer way: the feature added has
the tags `name=Utopia` and `admin_level=4` and no other property. -/
theorem properties_equal_tags_witness :
    (∀ k : String,
        (buildFeature (collectCoords [openOuter]) sampleTags : Feature Int).Properties.lookup k
          = (relationOf [openOuter]).Tags.lookup k)
      ∧ (∀ k : String,
          k ∈ (buildFeature (collectCoords [openOuter]) sampleTags : Feature Int).Properties.keys
            ↔ k ∈ (relationOf [openOuter]).Tags.keys)
      ∧ ((relationOf [openOuter]).Tags.entries = [] →
          (buildFeature (collectCoords [openOuter]) sampleTags : Feature Int).Properties.entries
            = []) :=
  properties_equal_tags NewFeatureCollection (relationOf [openOuter])
    (buildFeature (collectCoords [openOuter]) sampleTags) (by decide)

/-- C8: when the server answers with a status other than 200, `fetchBoundary`
returns the error that carries that status code, whose text ends with the code
in decimal, and the file-system state it returns is the state it was given;
this is so whatever the directory-creation and file-write calls would do, so
neither is reached. -/
theorem status_error_leaves_files_untouched (env : FetchEnv α σ) (adminLevel : Int)
    (countryName countryCode : String) (fs : σ) (resp : HttpResponse)
    (hget : env.httpGet (apiURL env countryCode adminLevel) = .ok resp)
    (hstatus : resp.StatusCode ≠ 200) :
    fetchBoundary env adminLevel countryName countryCode fs
        = (fs, some (FetchError.status resp.StatusCode))
      ∧ (FetchError.status resp.StatusCode).message
        = "API request failed with status " ++ toString resp.StatusCode
      ∧ ∀ (mk : String → Nat → σ → σ × Option String)
          (wr : String → String → Nat → σ → σ × Option String),
          fetchBoundary { env with mkdirAll := mk, writeFile := wr } adminLevel countryName
            countryCode fs = (fs, some (FetchError.status resp.StatusCode)) := by
  refine ⟨?_, rfl, ?_⟩
  · unfold fetchBoundary
    rw [hget]
    simp only [if_pos hstatus]
  · intro mk wr
    have hget2 : env.httpGet
        (apiURL { env with mkdirAll := mk, writeFile := wr } countryCode adminLevel)
          = .ok resp := hget
    unfold fetchBoundary
    simp only [hget2, if_pos hstatus]

/-- C8 at a server that answers 404: the error carries 404 and the empty disk
stays empty. -/
theorem status_error_leaves_files_untouched_witness :
    fetchBoundary (sampleFetchEnv 404 [relationOf [openOuter]]) 4 "Utopia" "Q1"
        ({ dirs := [], files := [] } : Disk)
        = ({ dirs := [], files := [] }, some (FetchError.status 404))
      ∧ (FetchError.status 404).message = "API request failed with status " ++ toString (404 : Int)
      ∧ ∀ (mk : String → Nat → Disk → Disk × Option String)
          (wr : String → String → Nat → Disk → Disk × Option String),
          fetchBoundary { sampleFetchEnv 404 [relationOf [openOuter]] with
              mkdirAll := mk, writeFile := wr } 4 "Utopia" "Q1"
            ({ dirs := [], files := [] } : Disk)
            = ({ dirs := [], files := [] }, some (FetchError.status 404)) :=
  status_error_leaves_files_untouched (sampleFetchEnv 404 [relationOf [openOuter]]) 4
    "Utopia" "Q1" { dirs := [], files := [] } { StatusCode := 404, Body := .ok "payload" }
    rfl (by decide)

/-- C9: for a sorting routine that keeps the promise of `sort.Slice`, every
output tree and every catalog, `getDownloadedBoundaries` returns a list that is
ordered by country label and, for equal labels, by administrative level (for
every pair of positions, so for every adjacent pair), and that is a
rearrangement of the records collected by the scan. -/
theorem downloaded_sorted_by_label_then_level
    (sortSlice : (DownloadedBoundary → DownloadedBoundary → Bool)
      → List DownloadedBoundary → List DownloadedBoundary)
    (hsort : SortsSlices sortSlice) (env : ScanEnv) (countries : List Country) :
    ∃ (out : List DownloadedBoundary) (countryMap : StrMap),
      getDownloadedBoundaries sortSlice env countries = some out
        ∧ buildCountryMap ∅ countries = some countryMap
        ∧ out.Pairwise (fun a b => a.CountryLabel < b.CountryLabel
            ∨ (a.CountryLabel = b.CountryLabel ∧ a.AdminLevel ≤ b.AdminLevel))
        ∧ out.Chain' (fun a b => a.CountryLabel < b.CountryLabel
            ∨ (a.CountryLabel = b.CountryLabel ∧ a.AdminLevel ≤ b.AdminLevel))
        ∧ out.Perm (collected env countryMap) := by
  obtain ⟨countryMap, hmap⟩ := buildCountryMap_isSome countries ∅
  have key : ∀ xs : List DownloadedBoundary,
      (sortSlice boundaryLess xs).Pairwise (fun a b => a.CountryLabel < b.CountryLabel
            ∨ (a.CountryLabel = b.CountryLabel ∧ a.AdminLevel ≤ b.AdminLevel)) := by
    intro xs
    refine ((hsort boundaryLess boundaryLess_strictWeakOrder xs).2).imp ?_
    intro a b hab
    exact (boundaryLess_eq_false_iff b a).mp hab
  unfold getDownloadedBoundaries collected
  rw [hmap]
  cases hstat : env.stat "geojson" with
  | notExist =>
    exact ⟨[], countryMap, rfl, rfl, List.Pairwise.nil, List.chain'_nil, List.Perm.refl _⟩
  | ok info =>
    cases hdir : env.readDir "geojson" with
    | none =>
      exact ⟨[], countryMap, rfl, rfl, List.Pairwise.nil, List.chain'_nil, List.Perm.refl _⟩
    | some entries =>
      exact ⟨_, countryMap, rfl, rfl, key _, (key _).chain',
        (hsort boundaryLess boundaryLess_strictWeakOrder _).1⟩
  | failed =>
    cases hdir : env.readDir "geojson" with
    | none =>
      exact ⟨[], countryMap, rfl, rfl, List.Pairwise.nil, List.chain'_nil, List.Perm.refl _⟩
    | some entries =>
      exact ⟨_, countryMap, rfl, rfl, key _, (key _).chain',
        (hsort boundaryLess boundaryLess_strictWeakOrder _).1⟩

/-- C9 at the tree with `US/2` and `US/4` and insertion sort: two records for
"US", level 2 before level 4. -/
theorem downloaded_sorted_by_label_then_level_witness :
    (getDownloadedBoundaries insertionSortLess usTreeEnv []).map
        (fun out => out.map (fun r => (r.CountryCode, r.CountryLabel, r.AdminLevel)))
        = some [("US", "US", 2), ("US", "US", 4)]
      ∧ ∃ (out : List DownloadedBoundary) (countryMap : StrMap),
        getDownloadedBoundaries insertionSortLess usTreeEnv [] = some out
          ∧ buildCountryMap ∅ [] = some countryMap
          ∧ out.Pairwise (fun a b => a.CountryLabel < b.CountryLabel
              ∨ (a.CountryLabel = b.CountryLabel ∧ a.AdminLevel ≤ b.AdminLevel))
          ∧ out.Chain' (fun a b => a.CountryLabel < b.CountryLabel
              ∨ (a.CountryLabel = b.CountryLabel ∧ a.AdminLevel ≤ b.AdminLevel))
          ∧ out.Perm (collected usTreeEnv countryMap) :=
  ⟨by decide,
    downloaded_sorted_by_label_then_level insertionSortLess insertionSortLess_sortsSlices
      usTreeEnv []⟩

/-- C10: let the listing of `geojson` hold a directory whose name is the short
code of no catalog entry, and let the listing of that directory hold a
directory with a numeric name under which the boundary file is found.  Then
`getDownloadedBoundaries` returns a list with a record for that code and level,
and the label of that record is the code itself. -/
theorem unknown_code_is_its_own_label
    (sortSlice : (DownloadedBoundary → DownloadedBoundary → Bool)
      → List DownloadedBoundary → List DownloadedBoundary)
    (hsort : SortsSlices sortSlice) (env : ScanEnv) (countries : List Country)
    (entries levels : List DirEntry) (entry level : DirEntry) (n : Int) (info : FileInfo)
    (hroot : env.stat "geojson" ≠ .notExist)
    (hlist : env.readDir "geojson" = some entries)
    (hentry : entry ∈ entries) (hisdir : entry.IsDir = true)
    (hunknown : ∀ c ∈ countries, getQNumber c.CountryID ≠ some entry.Name)
    (hlevels : env.readDir (pathJoin ["geojson", entry.Name]) = some levels)
    (hlevel : level ∈ levels) (hdir : level.IsDir = true) (hnum : atoi level.Name = some n)
    (hfile : env.stat (pathJoin [pathJoin ["geojson", entry.Name], level.Name,
      "boundary.geojson"]) = .ok info) :
    ∃ out : List DownloadedBoundary,
      getDownloadedBoundaries sortSlice env countries = some out
        ∧ ∃ r ∈ out, r.CountryCode = entry.Name ∧ r.CountryLabel = entry.Name
            ∧ r.AdminLevel = n
            ∧ r.FilePath = pathJoin [pathJoin ["geojson", entry.Name], level.Name,
                "boundary.geojson"]
            ∧ r.FileSize = info.Size ∧ r.ModTime = info.ModTime := by
  obtain ⟨countryMap, hmap⟩ := buildCountryMap_isSome countries ∅
  have hnone : countryMap.lookup entry.Name = none :=
    buildCountryMap_lookup_none countries ∅ countryMap entry.Name (AList.lookup_empty _)
      hunknown hmap
  have hlabel : labelOf countryMap entry.Name = entry.Name := by
    unfold labelOf
    simp [hnone]
  have hrec := scanEntries_records env countryMap entries [] entry level levels n info
    hentry hisdir hlevels hlevel hdir hnum hfile
  rw [hlabel] at hrec
  have hperm := (hsort boundaryLess boundaryLess_strictWeakOrder
    (scanEntries env countryMap [] entries)).1
  have hres : getDownloadedBoundaries sortSlice env countries
      = some (sortSlice boundaryLess (scanEntries env countryMap [] entries)) := by
    unfold getDownloadedBoundaries
    rw [hmap]
    cases hstat : env.stat "geojson" with
    | notExist => exact absurd hstat hroot
    | ok i => simp only [hlist]
    | failed => simp only [hlist]
  exact ⟨_, hres, _, hperm.mem_iff.mpr hrec, rfl, rfl, rfl, rfl, rfl, rfl⟩

/-- C10 at the sample tree with the catalog that knows `Q30` only: the
directory `US` with its level directory `10` gives a record labelled "US". -/
theorem unknown_code_is_its_own_label_witness :
    ∃ out : List DownloadedBoundary,
      getDownloadedBoundaries insertionSortLess sampleScanEnv sampleCatalog = some out
        ∧ ∃ r ∈ out, r.CountryCode = "US" ∧ r.CountryLabel = "US"
            ∧ r.AdminLevel = 10
            ∧ r.FilePath = pathJoin [pathJoin ["geojson", "US"], "10", "boundary.geojson"]
            ∧ r.FileSize = 1000 ∧ r.ModTime = "2024-05-02" :=
  unknown_code_is_its_own_label insertionSortLess insertionSortLess_sortsSlices sampleScanEnv
    sampleCatalog [⟨"Q30", true⟩, ⟨"README.md", false⟩, ⟨"US", true⟩]
    [⟨"10", true⟩, ⟨"2", true⟩, ⟨"4", true⟩, ⟨"notes", true⟩] ⟨"US", true⟩ ⟨"10", true⟩ 10
    ⟨1000, "2024-05-02"⟩ (by decide) (by decide) (by decide) rfl (by decide) (by decide)
    (by decide) rfl (by decide) (by decide)

/-- C11: for every string, the index `len(parts)-1` of `getQNumber` is in range,
so a result is returned, and the result is the last segment between slashes:
the string is some part followed by the result, that part is empty or ends with
a slash, and the result holds no slash. -/
theorem getQNumber_is_last_segment (countryID : String) :
    (splitOnSep '/' countryID.data).length - 1 < (splitOnSep '/' countryID.data).length
      ∧ ∃ (q pre : String), getQNumber countryID = some q
          ∧ countryID = pre ++ q
          ∧ (pre = "" ∨ pre.data.getLast? = some '/')
          ∧ '/' ∉ q.data := by
  constructor
  · have : 0 < (splitOnSep '/' countryID.data).length :=
      List.length_pos.mpr (splitOnSep_ne_nil '/' countryID.data)
    omega
  · obtain ⟨pre, last, hlast, hcs, hpre, hsep⟩ := splitOnSep_getLast '/' countryID.data
    refine ⟨String.mk last, String.mk pre, ?_, ?_, ?_, hsep⟩
    · unfold getQNumber
      simp only []
      rw [← List.getLast?_eq_getElem?, hlast]
      rfl
    · apply String.ext
      rw [hcs]
      rfl
    · rcases hpre with h | h
      · exact Or.inl (by rw [h])
      · exact Or.inr h

/-- C11 at sample strings: a URI, a bare code, the empty string and a string
that ends with a slash. -/
theorem getQNumber_is_last_segment_witness :
    getQNumber "http://www.wikidata.org/entity/Q30" = some "Q30"
      ∧ getQNumber "Q30" = some "Q30"
      ∧ getQNumber "" = some ""
      ∧ getQNumber "entity/" = some ""
      ∧ ∃ (q pre : String), getQNumber "http://www.wikidata.org/entity/Q30" = some q
          ∧ "http://www.wikidata.org/entity/Q30" = pre ++ q
          ∧ (pre = "" ∨ pre.data.getLast? = some '/')
          ∧ '/' ∉ q.data :=
  ⟨by decide, by decide, by decide, by decide,
    (getQNumber_is_last_segment "http://www.wikidata.org/entity/Q30").2⟩

end BoundaryFetcher
